import Mathlib

/-!
Shallow embedding of the md2docx front-end (React renderer + Electron main
process) and proofs about its settings model, file selector, conversion
orchestrator and external-converter bridge.

Sources embedded:
  * `src/components/Settings.jsx` — `handleChange`
  * `src/components/FileUploader.jsx` — `handleDrop`, `handleFileSelect`
  * `src/App.jsx` — `handleConvert` and the top-level state
  * `src/components/Converter.jsx` — `handleCopyPath`
  * `electron/main.js` — the `convert-file` IPC handler's output-path
    computation and resolve/reject behaviour
JavaScript builtins used by that code (`parseFloat`,
`String.prototype.endsWith`, Node's `path.dirname` / `path.basename` /
`path.join`) are modelled explicitly; each model's doc comment states its
scope.
-/

namespace Md2Docx

/-! ## Settings model (`src/components/Settings.jsx`) -/

/-- A JavaScript value stored in a settings field: a finite number, the
floating-point `NaN`, or a string.  Finite numbers are modelled as rationals
(every numeric literal and every decimal the UI produces is exact here; no
claim depends on rounding). -/
inductive SettingsValue where
  | num (q : ℚ)
  | nan
  | str (s : String)
  deriving DecidableEq, Repr

/-- Numeric value of a digit list, most significant first. -/
def digitsVal (ds : List Char) : ℚ :=
  ds.foldl (fun a c => a * 10 + ((c.toNat - 48 : ℕ) : ℚ)) 0

/-- Value of a fractional digit list (the digits after the decimal point). -/
def fracVal (ds : List Char) : ℚ :=
  digitsVal ds / (10 : ℚ) ^ ds.length

/-- Model of JavaScript `parseFloat` on a character list: skip leading
whitespace, optional sign, then the longest run of digits with at most one
decimal point; `NaN` when no digit is consumed.  (Exponent suffixes and the
`Infinity` literal are outside the model's scope; no input in this
development uses them.) -/
def parseFloatChars (l : List Char) : SettingsValue :=
  let l1 := l.dropWhile Char.isWhitespace
  let signed : Bool × List Char :=
    match l1 with
    | '-' :: rest => (true, rest)
    | '+' :: rest => (false, rest)
    | _ => (false, l1)
  let intPart := signed.2.takeWhile Char.isDigit
  let rest := signed.2.dropWhile Char.isDigit
  let fracPart : List Char :=
    match rest with
    | '.' :: r => r.takeWhile Char.isDigit
    | _ => []
  if intPart = [] ∧ fracPart = [] then SettingsValue.nan
  else
    let v := digitsVal intPart + fracVal fracPart
    SettingsValue.num (if signed.1 then -v else v)

/-- Model of JavaScript `parseFloat` on a string. -/
def parseFloatJS (s : String) : SettingsValue :=
  parseFloatChars s.data

/-- The `DocumentSettings` record held in `App.jsx` state.  Every field holds
a `SettingsValue` because `Settings.jsx`'s `handleChange` can write a parsed
number (or `NaN`) into any of them. -/
structure DocumentSettings where
  fontSize : SettingsValue
  fontFamily : SettingsValue
  lineSpacing : SettingsValue
  firstLineIndent : SettingsValue
  marginTop : SettingsValue
  marginBottom : SettingsValue
  marginLeft : SettingsValue
  marginRight : SettingsValue
  deriving DecidableEq, Repr

/-- The initial settings record from `App.jsx` (`useState({...})`). -/
def defaultSettings : DocumentSettings where
  fontSize := SettingsValue.num 14
  fontFamily := SettingsValue.str "Times New Roman"
  lineSpacing := SettingsValue.num (3 / 2)
  firstLineIndent := SettingsValue.num (127 / 100)
  marginTop := SettingsValue.num 2
  marginBottom := SettingsValue.num 2
  marginLeft := SettingsValue.num 3
  marginRight := SettingsValue.num (3 / 2)

/-- The field names `Settings.jsx` passes to `handleChange` as `key`. -/
inductive SettingsKey where
  | fontSize
  | fontFamily
  | lineSpacing
  | firstLineIndent
  | marginTop
  | marginBottom
  | marginLeft
  | marginRight
  deriving DecidableEq, Repr

/-- Read one field of a settings record. -/
def getField (s : DocumentSettings) : SettingsKey → SettingsValue
  | SettingsKey.fontSize => s.fontSize
  | SettingsKey.fontFamily => s.fontFamily
  | SettingsKey.lineSpacing => s.lineSpacing
  | SettingsKey.firstLineIndent => s.firstLineIndent
  | SettingsKey.marginTop => s.marginTop
  | SettingsKey.marginBottom => s.marginBottom
  | SettingsKey.marginLeft => s.marginLeft
  | SettingsKey.marginRight => s.marginRight

/-- The computed-property spread `{ ...settings, [key]: v }`: a fresh record
with exactly the named field replaced. -/
def setField (s : DocumentSettings) (k : SettingsKey) (v : SettingsValue) :
    DocumentSettings :=
  match k with
  | SettingsKey.fontSize => { s with fontSize := v }
  | SettingsKey.fontFamily => { s with fontFamily := v }
  | SettingsKey.lineSpacing => { s with lineSpacing := v }
  | SettingsKey.firstLineIndent => { s with firstLineIndent := v }
  | SettingsKey.marginTop => { s with marginTop := v }
  | SettingsKey.marginBottom => { s with marginBottom := v }
  | SettingsKey.marginLeft => { s with marginLeft := v }
  | SettingsKey.marginRight => { s with marginRight := v }

/-- `Settings.jsx`'s `handleChange`:
`setSettings({ ...settings, [key]: parseFloat(value) })`.  Note that the
`parseFloat` is applied to every field's change, the font-family `select`
included. -/
def handleChange (settings : DocumentSettings) (key : SettingsKey)
    (value : String) : DocumentSettings :=
  setField settings key (parseFloatJS value)

/-! ## File selector (`src/components/FileUploader.jsx`) -/

/-- The `File` object the drop / picker events deliver (`name`, `size`,
`path` are the members this code reads). -/
structure SelectedFile where
  name : String
  size : ℕ
  path : String
  deriving DecidableEq, Repr

/-- Model of JavaScript `String.prototype.endsWith` (one argument): the
character sequence of the argument is a suffix of the receiver's. -/
def jsEndsWith (s pat : String) : Bool :=
  decide (pat.data <:+ s.data)

/-- `FileUploader.jsx`'s `handleDrop` as a state update on the current
selection: the dropped file (if any) replaces the selection only when its
name ends in `.md`; otherwise the drop is ignored. -/
def handleDrop (current : Option SelectedFile)
    (dropped : Option SelectedFile) : Option SelectedFile :=
  match dropped with
  | some f => if jsEndsWith f.name ".md" then some f else current
  | none => current

/-- `FileUploader.jsx`'s `handleFileSelect`: any file the picker returns
replaces the selection, with no check on its name. -/
def handleFileSelect (current : Option SelectedFile)
    (picked : Option SelectedFile) : Option SelectedFile :=
  match picked with
  | some f => some f
  | none => current

/-! ## Conversion orchestrator (`src/App.jsx`) -/

/-- What the awaited `window.electronAPI.convertFile` call does: resolve
with an `outputPath`, or reject with an error whose `message` may be a
string or absent (`undefined`). -/
inductive BridgeOutcome where
  | resolve (outputPath : String)
  | reject (message : Option String)
  deriving DecidableEq, Repr

/-- The `App.jsx` component state relevant to conversion: the four
`useState` slots `file`, `settings`, `outputFile`, `isConverting`, plus
`error`. -/
structure AppState where
  file : Option SelectedFile
  settings : DocumentSettings
  outputFile : Option String
  isConverting : Bool
  error : Option String
  deriving DecidableEq, Repr

/-- The initial `App.jsx` state: no file, default settings, no output, not
converting, no error. -/
def initialAppState : AppState where
  file := none
  settings := defaultSettings
  outputFile := none
  isConverting := false
  error := none

/-- One step `handleConvert` performs, in program order: a `setX` state
update or the single bridge invocation `convertFile(file.path, settings)`. -/
inductive Ev where
  | setIsConverting (b : Bool)
  | setError (e : Option String)
  | setOutputFile (o : Option String)
  | bridgeCall (path : String) (settings : DocumentSettings)
  deriving DecidableEq, Repr

/-- Whether an event is the bridge invocation. -/
def isBridgeCallEv : Ev → Bool
  | Ev.bridgeCall _ _ => true
  | _ => false

/-- The message stored on rejection: `err.message || 'Произошла ошибка при
конвертации'` — the fallback is used when `message` is absent or the empty
string (both falsy). -/
def rejectionText (message : Option String) : String :=
  match message with
  | some s => if s = "" then "Произошла ошибка при конвертации" else s
  | none => "Произошла ошибка при конвертации"

/-- The sequence of steps `handleConvert` performs, given the component
state at invocation time and how the awaited bridge call turns out.
Translated from `App.jsx`: the `if (!file) return` guard, then
`setIsConverting(true); setError(null); setOutputFile(null)`, the awaited
`convertFile(file.path, settings)`, the `then`/`catch` update, and the final
`setIsConverting(false)`. -/
def handleConvertTrace (st : AppState) (outcome : BridgeOutcome) : List Ev :=
  match st.file with
  | none => []
  | some f =>
      [Ev.setIsConverting true, Ev.setError none, Ev.setOutputFile none,
       Ev.bridgeCall f.path st.settings]
      ++ (match outcome with
          | BridgeOutcome.resolve out => [Ev.setOutputFile (some out)]
          | BridgeOutcome.reject m => [Ev.setError (some (rejectionText m))])
      ++ [Ev.setIsConverting false]

/-- Apply one event to the component state (the bridge call itself does not
change React state). -/
def applyEv (st : AppState) : Ev → AppState
  | Ev.setIsConverting b => { st with isConverting := b }
  | Ev.setError e => { st with error := e }
  | Ev.setOutputFile o => { st with outputFile := o }
  | Ev.bridgeCall _ _ => st

/-- Apply a list of events in order. -/
def applyTrace (st : AppState) (evs : List Ev) : AppState :=
  evs.foldl applyEv st

/-- The state after `handleConvert` has run to completion. -/
def runConvert (st : AppState) (outcome : BridgeOutcome) : AppState :=
  applyTrace st (handleConvertTrace st outcome)

/-- The spec's `ConversionState` tagged union. -/
inductive ConversionState where
  | Idle
  | Converting
  | Succeeded (outputPath : String)
  | Failed (message : String)
  deriving DecidableEq, Repr

/-- The conversion state the `App.jsx` flags denote: converting while
`isConverting`, failed while an error is stored, succeeded while an output
path is stored, idle otherwise. -/
def conversionState (st : AppState) : ConversionState :=
  if st.isConverting then ConversionState.Converting
  else
    match st.error with
    | some m => ConversionState.Failed m
    | none =>
        match st.outputFile with
        | some p => ConversionState.Succeeded p
        | none => ConversionState.Idle

/-! ## Result presenter (`src/components/Converter.jsx`) -/

/-- `Converter.jsx`'s `handleCopyPath`, as a function of the `outputFile`
prop and the prior clipboard contents.  Returns the new clipboard contents
and whether the transient `copied` indicator was set.  `if (outputFile)` is
JavaScript truthiness: `null` and the empty string both skip the copy. -/
def handleCopyPath (outputFile : Option String) (clipboard : Option String) :
    Option String × Bool :=
  match outputFile with
  | some p => if p = "" then (clipboard, false) else (some p, true)
  | none => (clipboard, false)

/-! ## External converter bridge (`electron/main.js`, `convert-file`) -/

/-- Model of Node `path.posix.basename` without an extension argument, for
paths that do not end in `/`: the characters after the last `/` (the whole
path when it has no `/`). -/
def basenameChars (l : List Char) : List Char :=
  (l.reverse.takeWhile (fun c => c ≠ '/')).reverse

/-- Model of Node `path.posix.dirname`, for paths that do not end in `/`:
everything before the last `/`, with `.` when there is no `/` and `/` when
the last `/` is the leading one. -/
def dirnameChars (l : List Char) : List Char :=
  match l.reverse.dropWhile (fun c => c ≠ '/') with
  | [] => ['.']
  | _ :: tl => if tl = [] then ['/'] else tl.reverse

/-- Model of Node `path.posix.basename(p, ext)`, for paths that do not end
in `/`: the basename, with `ext` stripped when it is a proper suffix of the
basename (Node keeps the extension when the basename is exactly `ext`). -/
def basenameExtChars (l ext : List Char) : List Char :=
  if ext.length < (basenameChars l).length
      ∧ (basenameChars l).drop ((basenameChars l).length - ext.length) = ext
  then (basenameChars l).take ((basenameChars l).length - ext.length)
  else basenameChars l

/-- Model of Node `path.posix.join` on two segments that contain no `.`/`..`
components and no doubled slashes (the only shapes this code passes it):
concatenate, inserting a `/` unless one is already there. -/
def joinChars (a b : List Char) : List Char :=
  if a = [] then b
  else if a.getLast? = some '/' then a ++ b
  else a ++ '/' :: b

/-- The `convert-file` handler's output path, on character lists:
`path.join(path.dirname(filePath), path.basename(filePath, '.md') + '.docx')`. -/
def convertFileOutputPathChars (l : List Char) : List Char :=
  joinChars (dirnameChars l)
    (basenameExtChars l ".md".data ++ ".docx".data)

/-- The `convert-file` handler's output path:
`path.join(path.dirname(filePath), path.basename(filePath, '.md') + '.docx')`. -/
def convertFileOutputPath (filePath : String) : String :=
  String.mk (convertFileOutputPathChars filePath.data)

/-- The observable end of the spawned python process: its exit code and
captured output streams. -/
structure ProcessResult where
  exitCode : Int
  stdout : String
  stderr : String
  deriving DecidableEq, Repr

/-- The `convert-file` IPC handler's settled promise: on exit code `0` it
resolves with the computed output path, otherwise it rejects with
`Conversion failed: ` followed by the captured stderr. -/
def convertFileHandler (filePath : String) (_settings : DocumentSettings)
    (proc : ProcessResult) : Except String String :=
  if proc.exitCode = 0 then Except.ok (convertFileOutputPath filePath)
  else Except.error ("Conversion failed: " ++ proc.stderr)

/-! ## Claims about the settings model -/

/-- Claim C5: the spec says only numeric fields are parsed as
floating-point numbers and a font-family change stores the selected font
name as a string.  The code's `handleChange` applies `parseFloat` to every
field, the font-family `select` included, so choosing any of the three
offered fonts stores `NaN` instead of the font name: the code contradicts
its own data model (string-valued initial `fontFamily`, string-valued
`option`s).  This theorem evaluates the code at the failing inputs. -/
theorem fontFamily_change_parses_to_nan :
    (handleChange defaultSettings SettingsKey.fontFamily "Arial").fontFamily
        = SettingsValue.nan
    ∧ (handleChange defaultSettings SettingsKey.fontFamily
        "Times New Roman").fontFamily = SettingsValue.nan
    ∧ (handleChange defaultSettings SettingsKey.fontFamily
        "Calibri").fontFamily = SettingsValue.nan := by
  refine ⟨?_, ?_, ?_⟩ <;> rfl

/-- Claim C6: changing one settings field yields a new record equal to the
old one in every other field (the old record itself is a value in this
embedding, so it is never mutated). -/
theorem handleChange_frame (s : DocumentSettings) (k : SettingsKey)
    (v : String) (k2 : SettingsKey) (h : k2 ≠ k) :
    getField (handleChange s k v) k2 = getField s k2 := by
  cases k <;> cases k2 <;> first
    | rfl
    | exact absurd rfl h

/-- Witness for `handleChange_frame` at a concrete change. -/
theorem handleChange_frame_witness :
    SettingsKey.marginTop ≠ SettingsKey.fontSize
    ∧ getField (handleChange defaultSettings SettingsKey.fontSize "15")
        SettingsKey.marginTop = getField defaultSettings SettingsKey.marginTop :=
  ⟨by decide,
   handleChange_frame defaultSettings SettingsKey.fontSize "15"
     SettingsKey.marginTop (by decide)⟩

/-! ## Claims about the file selector -/

/-- Claim C7: a dropped file whose name ends in `.md` becomes the current
selection; a dropped file whose name does not is silently ignored and the
selection is unchanged. -/
theorem handleDrop_md_filter :
    (∀ (cur : Option SelectedFile) (f : SelectedFile),
        jsEndsWith f.name ".md" = true → handleDrop cur (some f) = some f)
    ∧ (∀ (cur : Option SelectedFile) (f : SelectedFile),
        jsEndsWith f.name ".md" = false → handleDrop cur (some f) = cur) := by
  constructor <;> intro cur f h <;> simp [handleDrop, h]

/-- Witness for `handleDrop_md_filter`: `x.md` is accepted, `x.txt` is
ignored. -/
theorem handleDrop_md_filter_witness :
    handleDrop none (some ⟨"x.md", 5, "/tmp/x.md"⟩)
        = some ⟨"x.md", 5, "/tmp/x.md"⟩
    ∧ handleDrop (some ⟨"a.md", 1, "/tmp/a.md"⟩)
        (some ⟨"x.txt", 5, "/tmp/x.txt"⟩) = some ⟨"a.md", 1, "/tmp/a.md"⟩ :=
  ⟨handleDrop_md_filter.1 none ⟨"x.md", 5, "/tmp/x.md"⟩ (by decide),
   handleDrop_md_filter.2 (some ⟨"a.md", 1, "/tmp/a.md"⟩)
     ⟨"x.txt", 5, "/tmp/x.txt"⟩ (by decide)⟩

/-- Claim C8: the browse path applies no extension validation — whatever
file the picker returns becomes the current selection, whatever its name. -/
theorem handleFileSelect_no_validation :
    ∀ (cur : Option SelectedFile) (f : SelectedFile),
      handleFileSelect cur (some f) = some f := by
  intro cur f
  rfl

/-- The last character of a string that ends in `pat` is `pat`'s last
character. -/
theorem getLast?_of_jsEndsWith (s pat : String) (c : Char)
    (hp : pat.data.getLast? = some c) (h : jsEndsWith s pat = true) :
    s.data.getLast? = some c := by
  obtain ⟨u, hu⟩ := of_decide_eq_true h
  rw [← hu, List.getLast?_append, hp]
  rfl

/-- A string whose last character is not `d` does not end in `.md`. -/
theorem jsEndsWith_md_eq_false (s : String)
    (h : s.data.getLast? ≠ some 'd') : jsEndsWith s ".md" = false := by
  rw [jsEndsWith, decide_eq_false_iff_not]
  rintro ⟨u, hu⟩
  apply h
  rw [← hu, List.getLast?_append]
  rfl

/-- Claim C10: the drop extension check is case-sensitive — a dropped file
whose name ends in `.MD`, `.Md` or `.mD` fails the lowercase `.md` check
and is ignored, leaving the selection unchanged. -/
theorem handleDrop_case_sensitive :
    (∀ (cur : Option SelectedFile) (f : SelectedFile),
        jsEndsWith f.name ".MD" = true → handleDrop cur (some f) = cur)
    ∧ (∀ (cur : Option SelectedFile) (f : SelectedFile),
        jsEndsWith f.name ".Md" = true → handleDrop cur (some f) = cur)
    ∧ (∀ (cur : Option SelectedFile) (f : SelectedFile),
        jsEndsWith f.name ".mD" = true → handleDrop cur (some f) = cur) := by
  refine ⟨?_, ?_, ?_⟩ <;> intro cur f h
  · have hD := getLast?_of_jsEndsWith f.name ".MD" 'D' rfl h
    have hf := jsEndsWith_md_eq_false f.name (by rw [hD]; decide)
    simp [handleDrop, hf]
  · have hf : jsEndsWith f.name ".md" = false := by
      rw [jsEndsWith, decide_eq_false_iff_not]
      rintro ⟨u, hu⟩
      obtain ⟨u2, hu2⟩ := of_decide_eq_true h
      rw [← hu] at hu2
      have h2 := (List.append_inj' hu2 rfl).2
      exact absurd h2 (by decide)
    simp [handleDrop, hf]
  · have hD := getLast?_of_jsEndsWith f.name ".mD" 'D' rfl h
    have hf := jsEndsWith_md_eq_false f.name (by rw [hD]; decide)
    simp [handleDrop, hf]

/-- Witness for `handleDrop_case_sensitive` at the three concrete casings. -/
theorem handleDrop_case_sensitive_witness :
    handleDrop (some ⟨"a.md", 1, "/tmp/a.md"⟩)
        (some ⟨"x.MD", 5, "/tmp/x.MD"⟩) = some ⟨"a.md", 1, "/tmp/a.md"⟩
    ∧ handleDrop none (some ⟨"x.Md", 5, "/tmp/x.Md"⟩) = none
    ∧ handleDrop none (some ⟨"x.mD", 5, "/tmp/x.mD"⟩) = none :=
  ⟨handleDrop_case_sensitive.1 (some ⟨"a.md", 1, "/tmp/a.md"⟩)
     ⟨"x.MD", 5, "/tmp/x.MD"⟩ (by decide),
   handleDrop_case_sensitive.2.1 none ⟨"x.Md", 5, "/tmp/x.Md"⟩ (by decide),
   handleDrop_case_sensitive.2.2 none ⟨"x.mD", 5, "/tmp/x.mD"⟩ (by decide)⟩

/-! ## Claims about the conversion orchestrator -/

/-- Claim C3: with no file selected, invoking convert performs no step at
all — no state update, no bridge call — so a state that denotes `Idle`
still denotes `Idle` afterwards. -/
theorem convert_no_file_noop (st : AppState) (o : BridgeOutcome)
    (h : st.file = none) :
    handleConvertTrace st o = [] ∧ runConvert st o = st
    ∧ (conversionState st = ConversionState.Idle →
        conversionState (runConvert st o) = ConversionState.Idle) := by
  have ht : handleConvertTrace st o = [] := by
    rw [handleConvertTrace.eq_def, h]
  refine ⟨ht, ?_, ?_⟩
  · rw [runConvert, ht]
    rfl
  · intro hi
    rw [runConvert, ht]
    exact hi

/-- Witness for `convert_no_file_noop` at the initial state. -/
theorem convert_no_file_noop_witness :
    handleConvertTrace initialAppState (BridgeOutcome.resolve "/x.docx") = []
    ∧ runConvert initialAppState (BridgeOutcome.resolve "/x.docx")
        = initialAppState
    ∧ (conversionState initialAppState = ConversionState.Idle →
        conversionState (runConvert initialAppState
          (BridgeOutcome.resolve "/x.docx")) = ConversionState.Idle) :=
  convert_no_file_noop initialAppState (BridgeOutcome.resolve "/x.docx") rfl

/-- Claim C2: with a file selected, `handleConvert` first clears the prior
error and prior output, and only then performs the single bridge call,
passing the selected file's path and the settings snapshot; no further
bridge call follows. -/
theorem convert_clears_then_calls_once (st : AppState) (f : SelectedFile)
    (o : BridgeOutcome) (h : st.file = some f) :
    ∃ post : List Ev,
      handleConvertTrace st o =
        Ev.setIsConverting true :: Ev.setError none :: Ev.setOutputFile none ::
          Ev.bridgeCall f.path st.settings :: post
      ∧ post.countP isBridgeCallEv = 0 := by
  cases o with
  | resolve out =>
      refine ⟨[Ev.setOutputFile (some out), Ev.setIsConverting false], ?_, rfl⟩
      rw [handleConvertTrace.eq_def, h]
      rfl
  | reject m =>
      refine ⟨[Ev.setError (some (rejectionText m)), Ev.setIsConverting false],
        ?_, rfl⟩
      rw [handleConvertTrace.eq_def, h]
      rfl

/-- Witness for `convert_clears_then_calls_once` at a concrete state and
outcome. -/
theorem convert_clears_then_calls_once_witness :
    ∃ post : List Ev,
      handleConvertTrace
          { initialAppState with file := some ⟨"r.md", 1, "/docs/r.md"⟩ }
          (BridgeOutcome.resolve "/docs/r.docx") =
        Ev.setIsConverting true :: Ev.setError none :: Ev.setOutputFile none ::
          Ev.bridgeCall "/docs/r.md" defaultSettings :: post
      ∧ post.countP isBridgeCallEv = 0 :=
  convert_clears_then_calls_once
    { initialAppState with file := some ⟨"r.md", 1, "/docs/r.md"⟩ }
    ⟨"r.md", 1, "/docs/r.md"⟩ (BridgeOutcome.resolve "/docs/r.docx") rfl

/-- Claim C1: with a file selected, a bridge rejection leaves the machine
in `Failed` storing the rejection's message, and a rejection that carries
no message (or an empty one) stores the generic localized fallback. -/
theorem convert_reject_failed_message (st : AppState) (f : SelectedFile)
    (h : st.file = some f) :
    (∀ s : String, s ≠ "" →
        conversionState (runConvert st (BridgeOutcome.reject (some s)))
          = ConversionState.Failed s)
    ∧ conversionState (runConvert st (BridgeOutcome.reject none))
        = ConversionState.Failed "Произошла ошибка при конвертации" := by
  constructor
  · intro s hs
    simp [runConvert, handleConvertTrace, h, applyTrace, applyEv,
      conversionState, rejectionText, hs]
  · simp [runConvert, handleConvertTrace, h, applyTrace, applyEv,
      conversionState, rejectionText]

/-- Witness for `convert_reject_failed_message`: the "disk full" rejection
and the message-less rejection. -/
theorem convert_reject_failed_message_witness :
    conversionState (runConvert
        { initialAppState with file := some ⟨"r.md", 1, "/docs/r.md"⟩ }
        (BridgeOutcome.reject (some "disk full")))
      = ConversionState.Failed "disk full"
    ∧ conversionState (runConvert
        { initialAppState with file := some ⟨"r.md", 1, "/docs/r.md"⟩ }
        (BridgeOutcome.reject none))
      = ConversionState.Failed "Произошла ошибка при конвертации" :=
  ⟨(convert_reject_failed_message
      { initialAppState with file := some ⟨"r.md", 1, "/docs/r.md"⟩ }
      ⟨"r.md", 1, "/docs/r.md"⟩ rfl).1 "disk full" (by decide),
   (convert_reject_failed_message
      { initialAppState with file := some ⟨"r.md", 1, "/docs/r.md"⟩ }
      ⟨"r.md", 1, "/docs/r.md"⟩ rfl).2⟩

/-! ## Path computation lemmas -/

/-- `takeWhile` over `xs ++ y :: ys` returns `xs` when `p` holds on all of
`xs` and fails at `y`. -/
theorem takeWhile_append_stop {α : Type} (p : α → Bool) (xs ys : List α)
    (y : α) (hxs : ∀ x ∈ xs, p x = true) (hy : p y = false) :
    (xs ++ y :: ys).takeWhile p = xs := by
  induction xs with
  | nil => simp [List.takeWhile_cons, hy]
  | cons a as ih =>
      have ha := hxs a (List.mem_cons_self a as)
      have has : ∀ x ∈ as, p x = true :=
        fun x hx => hxs x (List.mem_cons_of_mem a hx)
      simp [List.takeWhile_cons, ha, ih has]

/-- `dropWhile` over `xs ++ y :: ys` returns `y :: ys` when `p` holds on
all of `xs` and fails at `y`. -/
theorem dropWhile_append_stop {α : Type} (p : α → Bool) (xs ys : List α)
    (y : α) (hxs : ∀ x ∈ xs, p x = true) (hy : p y = false) :
    (xs ++ y :: ys).dropWhile p = y :: ys := by
  induction xs with
  | nil => simp [List.dropWhile_cons, hy]
  | cons a as ih =>
      have ha := hxs a (List.mem_cons_self a as)
      have has : ∀ x ∈ as, p x = true :=
        fun x hx => hxs x (List.mem_cons_of_mem a hx)
      simp [List.dropWhile_cons, ha, ih has]

/-- Every character of a slash-free list satisfies the `≠ '/'` test. -/
theorem all_ne_slash_of_not_mem (name : List Char) (h : '/' ∉ name) :
    ∀ x ∈ name.reverse, (decide (x ≠ '/')) = true := by
  intro x hx
  have hm : x ∈ name := List.mem_reverse.mp hx
  exact decide_eq_true (fun he => h (he ▸ hm))

/-- The basename of `dir ++ '/' :: name` is `name` when `name` is
slash-free. -/
theorem basenameChars_of_append (dir name : List Char) (h : '/' ∉ name) :
    basenameChars (dir ++ '/' :: name) = name := by
  unfold basenameChars
  rw [List.reverse_append, List.reverse_cons, List.append_assoc,
    List.singleton_append,
    takeWhile_append_stop _ name.reverse dir.reverse '/'
      (all_ne_slash_of_not_mem name h) (by decide),
    List.reverse_reverse]

/-- The dirname of `dir ++ '/' :: name` is `dir` when `name` is slash-free
and `dir` is nonempty. -/
theorem dirnameChars_of_append (dir name : List Char) (h : '/' ∉ name)
    (hdir : dir ≠ []) : dirnameChars (dir ++ '/' :: name) = dir := by
  have hrest : (dir ++ '/' :: name).reverse.dropWhile
      (fun c => decide (c ≠ '/')) = '/' :: dir.reverse := by
    rw [List.reverse_append, List.reverse_cons, List.append_assoc,
      List.singleton_append]
    exact dropWhile_append_stop _ name.reverse dir.reverse '/'
      (all_ne_slash_of_not_mem name h) (by decide)
  unfold dirnameChars
  rw [hrest]
  have hrev : dir.reverse ≠ [] := fun he => hdir (List.reverse_eq_nil_iff.mp he)
  simp [hrev, List.reverse_reverse]

/-- A slash-free stem stays slash-free with `.md` appended. -/
theorem no_slash_append_md (stem : List Char) (h : '/' ∉ stem) :
    '/' ∉ stem ++ ".md".data := by
  intro hm
  rcases List.mem_append.mp hm with hh | hh
  · exact h hh
  · exact absurd hh (by decide)

/-- `path.basename(dir/stem.md, '.md')` is `stem` when `stem` is nonempty
and slash-free. -/
theorem basenameExtChars_of_append (dir stem : List Char)
    (h : '/' ∉ stem) (hne : stem ≠ []) :
    basenameExtChars (dir ++ '/' :: (stem ++ ".md".data)) ".md".data
      = stem := by
  unfold basenameExtChars
  rw [basenameChars_of_append dir _ (no_slash_append_md stem h)]
  have h3 : (".md".data : List Char).length = 3 := rfl
  have hsub : (stem ++ ".md".data).length - (".md".data : List Char).length
      = stem.length := by
    rw [List.length_append, h3, Nat.add_sub_cancel]
  have hcond : (".md".data : List Char).length < (stem ++ ".md".data).length
      ∧ (stem ++ ".md".data).drop
          ((stem ++ ".md".data).length - (".md".data : List Char).length)
        = ".md".data := by
    constructor
    · rw [h3, List.length_append, h3]
      have := List.length_pos.mpr hne
      omega
    · rw [hsub]
      exact List.drop_left stem _
  rw [if_pos hcond, hsub, List.take_left]

/-- `joinChars` inserts a slash between a nonempty left part without a
trailing slash and the right part. -/
theorem joinChars_of_ne (a b : List Char) (ha : a ≠ [])
    (hl : a.getLast? ≠ some '/') : joinChars a b = a ++ '/' :: b := by
  unfold joinChars
  rw [if_neg ha, if_neg hl]

/-- The computed output path is never the empty string. -/
theorem convertFileOutputPath_ne_empty (p : String) :
    convertFileOutputPath p ≠ "" := by
  intro h
  have hd : convertFileOutputPathChars p.data = [] := congrArg String.data h
  have hb : basenameExtChars p.data ".md".data ++ ".docx".data ≠ [] := by
    intro hb
    exact absurd (List.append_eq_nil.mp hb).2 (by decide)
  unfold convertFileOutputPathChars joinChars at hd
  split_ifs at hd
  · exact hb hd
  · exact hb (List.append_eq_nil.mp hd).2
  · exact absurd (List.append_eq_nil.mp hd).2 (List.cons_ne_nil _ _)

/-! ## Claims about the bridge and the result presenter -/

/-- Claim C9: a successful conversion (exit code `0`) of an input
`dir/stem.md` resolves with `dir/stem.docx`: the input's base name with the
`.md` extension replaced by `.docx`, in the input's own directory.
(`dir` is a nonempty directory path without a trailing slash and `stem` a
nonempty slash-free base name.) -/
theorem convertFile_success_output_path (dir stem : List Char)
    (s : DocumentSettings) (proc : ProcessResult)
    (h1 : dir ≠ []) (h2 : dir.getLast? ≠ some '/')
    (h3 : '/' ∉ stem) (h4 : stem ≠ []) (h0 : proc.exitCode = 0) :
    convertFileHandler (String.mk (dir ++ '/' :: (stem ++ ".md".data)))
        s proc
      = Except.ok (String.mk (dir ++ '/' :: (stem ++ ".docx".data))) := by
  unfold convertFileHandler
  rw [if_pos h0]
  have hchars : convertFileOutputPathChars (dir ++ '/' :: (stem ++ ".md".data))
      = dir ++ '/' :: (stem ++ ".docx".data) := by
    unfold convertFileOutputPathChars
    rw [dirnameChars_of_append dir _ (no_slash_append_md stem h3) h1,
      basenameExtChars_of_append dir stem h3 h4,
      joinChars_of_ne dir _ h1 h2]
  exact congrArg (fun l => Except.ok (String.mk l)) hchars

/-- Witness for `convertFile_success_output_path`:
`/docs/report.md` converts to `/docs/report.docx`. -/
theorem convertFile_success_output_path_witness :
    convertFileHandler "/docs/report.md" defaultSettings ⟨0, "", ""⟩
      = Except.ok "/docs/report.docx" :=
  convertFile_success_output_path "/docs".data "report".data
    defaultSettings ⟨0, "", ""⟩ (by decide) (by decide) (by decide)
    (by decide) rfl

/-- Claim C4: with a file selected, when the bridge resolves with an output
path (as the `convert-file` handler produces it), the machine ends in
`Succeeded` storing exactly that path, and a subsequent copy-path action
places exactly that path string on the clipboard. -/
theorem convert_resolve_succeeded_copy (st : AppState) (f : SelectedFile)
    (p out : String) (s : DocumentSettings) (proc : ProcessResult)
    (clip : Option String) (h : st.file = some f)
    (hok : convertFileHandler p s proc = Except.ok out) :
    conversionState (runConvert st (BridgeOutcome.resolve out))
        = ConversionState.Succeeded out
    ∧ (runConvert st (BridgeOutcome.resolve out)).outputFile = some out
    ∧ handleCopyPath (runConvert st (BridgeOutcome.resolve out)).outputFile
        clip = (some out, true) := by
  have hout : out = convertFileOutputPath p := by
    unfold convertFileHandler at hok
    split_ifs at hok
    injection hok with h2
    exact h2.symm
  have hne : out ≠ "" := hout ▸ convertFileOutputPath_ne_empty p
  refine ⟨?_, ?_, ?_⟩ <;>
    simp [runConvert, handleConvertTrace, h, applyTrace, applyEv,
      conversionState, handleCopyPath, hne]

/-- Witness for `convert_resolve_succeeded_copy` at the spec's example
path. -/
theorem convert_resolve_succeeded_copy_witness :
    conversionState (runConvert
        { initialAppState with file := some ⟨"report.md", 1, "/docs/report.md"⟩ }
        (BridgeOutcome.resolve "/docs/report.docx"))
      = ConversionState.Succeeded "/docs/report.docx"
    ∧ (runConvert
        { initialAppState with file := some ⟨"report.md", 1, "/docs/report.md"⟩ }
        (BridgeOutcome.resolve "/docs/report.docx")).outputFile
      = some "/docs/report.docx"
    ∧ handleCopyPath (runConvert
        { initialAppState with file := some ⟨"report.md", 1, "/docs/report.md"⟩ }
        (BridgeOutcome.resolve "/docs/report.docx")).outputFile none
      = (some "/docs/report.docx", true) :=
  convert_resolve_succeeded_copy
    { initialAppState with file := some ⟨"report.md", 1, "/docs/report.md"⟩ }
    ⟨"report.md", 1, "/docs/report.md"⟩ "/docs/report.md" "/docs/report.docx"
    defaultSettings ⟨0, "", ""⟩ none rfl (by rfl)

end Md2Docx
